import Mathlib

/-!
Verification development for the `download-video` tool (bilibili downloader).

The repository consists of two near-duplicate script variants: `index.js` and an
enhanced variant (retry logic, delegated yt-dlp downloader) embedded at the end
of `install.bat`.  The `pickFormats` selector is textually identical in both
variants; the retrieval / orchestration logic modelled below follows the
enhanced variant, whose line numbers the specification's claims cite.

Modelling conventions:
- JavaScript numbers restricted to `Int` (heights, bitrates); a missing or
  non-numeric attribute is `none`.
- A JS string field that may be absent is `Option String`; JS truthiness of a
  string is "present and non-empty".
- `Array.prototype.sort` with the source's comparators is modelled by a stable
  insertion sort (`stableSort`); for a consistent comparator the stable-sorted
  result is unique, so this coincides with the V8 (TimSort, stable) behaviour.
- Effectful code is modelled as a function from an oracle (outcomes of the
  external world: HTTP attempts, yt-dlp, ffmpeg, the filesystem) to a trace of
  observable events (`Ev`) plus a result / exit code.
-/

namespace DownloadVideo

/-- One candidate media representation, as produced by yt-dlp's JSON
(`FormatDescriptor`).  `none` models an absent (or non-numeric, for `height`)
attribute. -/
structure Format where
  vcodec : Option String
  acodec : Option String
  height : Option Int
  tbr : Option Int
  abr : Option Int
  ext : Option String
  url : String
deriving Repr, DecidableEq

/-- JS `f.vcodec && f.vcodec !== 'none'`: the field is present, truthy
(non-empty) and not the literal string "none". -/
def hasVideo (f : Format) : Bool :=
  match f.vcodec with
  | none => false
  | some s => !(s == "") && !(s == "none")

/-- JS `f.acodec && f.acodec !== 'none'`. -/
def hasAudio (f : Format) : Bool :=
  match f.acodec with
  | none => false
  | some s => !(s == "") && !(s == "none")

/-- JS `!f.vcodec || f.vcodec === 'none'`: absent, falsy (empty) or "none". -/
def noVideo (f : Format) : Bool :=
  match f.vcodec with
  | none => true
  | some s => (s == "") || (s == "none")

/-- JS `!f.acodec || f.acodec === 'none'`. -/
def noAudio (f : Format) : Bool :=
  match f.acodec with
  | none => true
  | some s => (s == "") || (s == "none")

/-- JS `typeof f.height === 'number' && f.height <= 720`. -/
def heightNumLe720 (f : Format) : Bool :=
  match f.height with
  | some h => decide (h ≤ 720)
  | none => false

/-- JS `f.tbr || 0`: absent (or 0) total bitrate counts as 0. -/
def tbr0 (f : Format) : Int := f.tbr.getD 0

/-- JS `f.abr || 0`. -/
def abr0 (f : Format) : Int := f.abr.getD 0

/-- Filter predicate of the `prog` list in `pickFormats` (muxed candidates):
both codecs present and numeric height ≤ 720. -/
def progPred (f : Format) : Bool :=
  hasVideo f && hasAudio f && heightNumLe720 f

/-- Filter predicate of the `videos` list in `pickFormats` (video-only
candidates): video codec present, audio channel absent, numeric height ≤ 720. -/
def videoOnlyPred (f : Format) : Bool :=
  hasVideo f && noAudio f && heightNumLe720 f

/-- Filter predicate of the `audios` list in `pickFormats` (audio-only
candidates): audio codec present, video channel absent.  Note: no height
constraint in the source. -/
def audioOnlyPred (f : Format) : Bool :=
  hasAudio f && noVideo f

/-- The JS comparator `(a, b) => (b.height - a.height) || ((b.tbr || 0) - (a.tbr || 0))`
as a "comes before or equal" boolean relation: `progLe a b` iff the comparator
applied to `(a, b)` is ≤ 0.  When either height is missing, the height
difference is NaN (falsy in JS), so the comparison falls through to the
bitrate term — modelled by the catch-all match arm. -/
def progLe (a b : Format) : Bool :=
  match a.height, b.height with
  | some ha, some hb =>
      if hb - ha ≠ 0 then decide (hb - ha < 0) else decide (tbr0 b - tbr0 a ≤ 0)
  | _, _ => decide (tbr0 b - tbr0 a ≤ 0)

/-- The JS comparator `(a, b) => ((b.abr || 0) - (a.abr || 0)) || ((b.tbr || 0) - (a.tbr || 0))`
of the `audios` sort, as a "comes before or equal" relation. -/
def audioLe (a b : Format) : Bool :=
  if abr0 b - abr0 a ≠ 0 then decide (abr0 b - abr0 a < 0)
  else decide (tbr0 b - tbr0 a ≤ 0)

/-- Insert `x` into an already sorted list, before the first element `y` with
`le x y` (so among comparator-equal elements the earlier-inserted element ends
first: stability). -/
def insertSorted (le : Format → Format → Bool) (x : Format) :
    List Format → List Format
  | [] => [x]
  | y :: ys => if le x y then x :: y :: ys else y :: insertSorted le x ys

/-- Stable sort modelling `Array.prototype.sort` with a consistent comparator
(Node's sort is stable; for a total preorder the stable-sorted permutation is
unique). -/
def stableSort (le : Format → Format → Bool) : List Format → List Format
  | [] => []
  | x :: xs => insertSorted le x (stableSort le xs)

/-- `SelectionResult` without its `None` case (which is `Option.none` of this
type): `pickFormats` returns either a progressive (muxed) pick or a dash
(video-only + audio-only) pair. -/
inductive Selection where
  | progressive (video : Format)
  | dash (video : Format) (audio : Format)
deriving Repr, DecidableEq

/-- `pickFormats` (identical in `index.js` lines 46–77 and the `install.bat`
variant lines 79–110): filter to muxed ≤720p candidates, sort by descending
(height, tbr) and return the head as a progressive pick; otherwise pair the
best video-only ≤720p candidate with the best audio-only candidate (sorted by
descending (abr, tbr), no height constraint) as a dash pick; otherwise null. -/
def pickFormats (formats : List Format) : Option Selection :=
  match (stableSort progLe (formats.filter progPred)).head? with
  | some v => some (.progressive v)
  | none =>
    match (stableSort progLe (formats.filter videoOnlyPred)).head?,
          (stableSort audioLe (formats.filter audioOnlyPred)).head? with
    | some v, some a => some (.dash v a)
    | _, _ => none

/-- Fixture: a muxed 720p format (both codecs concrete), tbr 1200. -/
def fmtMux720 : Format :=
  ⟨some "avc1", some "mp4a", some 720, some 1200, none, some "mp4", "https://v.example/mux720"⟩

/-- Fixture: a muxed 720p format with a lower tbr (300). -/
def fmtMux720Lo : Format :=
  ⟨some "avc1", some "mp4a", some 720, some 300, none, some "mp4", "https://v.example/mux720lo"⟩

/-- Fixture: a video-only 720p format (`acodec` the literal "none"). -/
def fmtVid720 : Format :=
  ⟨some "avc1", some "none", some 720, some 1000, none, some "mp4", "https://v.example/vid720"⟩

/-- Fixture: an audio-only format that carries `height = 1080` (the `audios`
filter in the source never looks at `height`). -/
def fmtAud1080 : Format :=
  ⟨some "none", some "mp4a", some 1080, some 200, some 128, some "m4a", "https://v.example/aud1080"⟩

/-- Fixture: an ordinary audio-only format without a height. -/
def fmtAud : Format :=
  ⟨none, some "mp4a", none, some 200, some 128, some "m4a", "https://v.example/aud"⟩

/-- Fixture: muxed 720p, tbr 100, url "…/a" — comparator-ties with `fmtMuxB`. -/
def fmtMuxA : Format :=
  ⟨some "avc1", some "mp4a", some 720, some 100, none, some "mp4", "https://v.example/a"⟩

/-- Fixture: muxed 720p, tbr 100, url "…/b" — distinct from `fmtMuxA` but equal
under both sort keys. -/
def fmtMuxB : Format :=
  ⟨some "avc1", some "mp4a", some 720, some 100, none, some "mp4", "https://v.example/b"⟩

/-- Fixture: muxed 600p format, tbr 100. -/
def fmtMux600Hi : Format :=
  ⟨some "avc1", some "mp4a", some 600, some 100, none, some "mp4", "https://v.example/m600hi"⟩

/-- Fixture: muxed 600p format, tbr 50 — equal height to `fmtMux600Hi`,
different tbr. -/
def fmtMux600Lo : Format :=
  ⟨some "avc1", some "mp4a", some 600, some 50, none, some "mp4", "https://v.example/m600lo"⟩

/-- Structured result document printed to standard output (`OutputReport`),
restricted to the fields the claims constrain. -/
inductive Report where
  | progressive (height : Option Int) (ext : Option String) (url : String)
  | merged (outputFile : String)
  | dashFallback (videoUrl : String) (audioUrl : String) (howToMerge : String)
deriving Repr, DecidableEq

/-- Observable events of a run.  `out` is a `console.log` diagnostic line
(stdout); `outJson` the `console.log` of a JSON.stringify-ed OutputReport
(also stdout); `err` a `console.error` / `console.warn` line (stderr);
`sleep` a retry backoff delay in milliseconds; `remove` a successful
`fs.remove` of a path. -/
inductive Ev where
  | out (s : String)
  | outJson (j : Report)
  | err (s : String)
  | sleep (ms : Nat)
  | remove (p : String)
deriving Repr, DecidableEq

/-- `true` exactly for the JSON-document stdout events. -/
def isJsonEv : Ev → Bool
  | .outJson _ => true
  | _ => false

/-- Outcome of the write/stream phase after a 2xx response in `downloadFile`:
the promise the function returns settles on the writer's finish event, or
rejects on a write-stream or response-stream error. -/
inductive StreamOutcome where
  | finished
  | writeError (msg : String)
  | streamError (msg : String)
deriving Repr, DecidableEq

/-- Outcome of one `await axios(...)` attempt.  `reqError` models a rejection
of the request itself — a non-2xx status (rejected by `validateStatus`,
carried in `status`) or a transport-level error (`status = none`) — which the
attempt loop's catch sees.  `reqOk` models a 2xx response whose streaming
phase then runs outside the try/catch. -/
inductive RequestPhase where
  | reqError (msg : String) (status : Option Nat)
  | reqOk (stream : StreamOutcome)
deriving Repr, DecidableEq

/-- Events logged when an axios attempt rejects (`downloadFile`'s catch
block, install.bat variant lines 196–207): the error message, the HTTP status
when a response exists, and the distinct 403 report. -/
def reqErrorEvents (file msg : String) (status : Option Nat) (attempt : Nat) :
    List Ev :=
  [.err ("Download error for " ++ file ++ " (attempt " ++ toString attempt
      ++ "): " ++ msg)]
    ++ match status with
       | some st =>
         [.err ("HTTP Status: " ++ toString st)]
           ++ (if st = 403 then
                [.err "403 Forbidden - This might be due to missing authentication or blocked access"]
              else [])
       | none => []

/-- The attempt loop of `downloadFile` (install.bat variant lines 162–216).
`oracle` gives each attempt's outcome.  A `reqError` is caught: on the final
attempt it is re-thrown, earlier attempts sleep `attempt * 2` seconds and
retry.  A 2xx response makes the source `return` the writer promise from
inside the loop, so a subsequent write/stream error rejects `downloadFile`
with no further retry.  `fuel` is `retries - attempt + 1`; if the loop ever
exited without returning, the async function would resolve (first arm). -/
def downloadFileGo (oracle : Nat → RequestPhase) (file : String)
    (retries : Nat) : Nat → Nat → List Ev × Except String Unit
  | _, 0 => ([], .ok ())
  | attempt, fuel + 1 =>
    let aev : List Ev :=
      [.out ("Attempt " ++ toString attempt ++ "/" ++ toString retries
          ++ " for " ++ file)]
    match oracle attempt with
    | .reqOk .finished => (aev ++ [.out ("Downloaded: " ++ file)], .ok ())
    | .reqOk (.writeError m) =>
        (aev ++ [.err ("Write error for " ++ file ++ ": " ++ m)], .error m)
    | .reqOk (.streamError m) =>
        (aev ++ [.err ("Stream error for " ++ file ++ ": " ++ m)], .error m)
    | .reqError m st =>
        let eev := reqErrorEvents file m st attempt
        if attempt = retries then (aev ++ eev, .error m)
        else
          let rest := downloadFileGo oracle file retries (attempt + 1) fuel
          (aev ++ eev
             ++ [.out ("Retrying in " ++ toString (attempt * 2) ++ " seconds..."),
                 .sleep (attempt * 2000)]
             ++ rest.1,
           rest.2)

/-- `downloadFile(url, filePath, retries = 3)`: the direct streaming axios
fetch with browser-like headers; at most three attempts. -/
def downloadFileRun (oracle : Nat → RequestPhase) (url file : String) :
    List Ev × Except String Unit :=
  let r := downloadFileGo oracle file 3 1 3
  ([.out ("Downloading: " ++ file), .out ("URL: " ++ url)] ++ r.1, r.2)

/-- `downloadFileWithYtDlp(url, filePath)`: delegation to yt-dlp's own
downloader; `r` is the external process outcome (its stderr text and error
message are both approximated by the carried string). -/
def downloadFileWithYtDlpRun (r : Except String Unit) (url file : String) :
    List Ev × Except String Unit :=
  let pre : List Ev :=
    [.out ("Downloading with yt-dlp: " ++ file), .out ("URL: " ++ url)]
  match r with
  | .ok _ => (pre ++ [.out ("Downloaded with yt-dlp: " ++ file)], .ok ())
  | .error m =>
      (pre ++ [.err ("yt-dlp download error for " ++ file ++ ": " ++ m),
               .err ("stderr: " ++ m)],
       .error ("yt-dlp download failed: " ++ m))

/-- Per-track oracle: the outcome of each direct-HTTP attempt and of the
delegated yt-dlp download. -/
structure TrackOracle where
  direct : Nat → RequestPhase
  ytdlp : Except String Unit

/-- The video download job (install.bat variant lines 315–323): axios first,
yt-dlp on failure; when both fail it rejects, carrying the axios error's
message. -/
def videoJobRun (t : TrackOracle) (url file : String) :
    List Ev × Except String Unit :=
  match downloadFileRun t.direct url file with
  | (evs, .ok _) => (evs, .ok ())
  | (evs, .error e) =>
    let evs2 := evs ++ [.err "Video download with axios failed, trying yt-dlp..."]
    match downloadFileWithYtDlpRun t.ytdlp url file with
    | (yevs, .ok _) => (evs2 ++ yevs, .ok ())
    | (yevs, .error ye) =>
        (evs2 ++ yevs
           ++ [.err ("Video download failed with both methods: " ++ ye)],
         .error ("Video download failed: " ++ e))

/-- The audio download job (install.bat variant lines 327–335): yt-dlp first,
axios on failure; when both fail it rejects, carrying the yt-dlp error's
message. -/
def audioJobRun (t : TrackOracle) (url file : String) :
    List Ev × Except String Unit :=
  match downloadFileWithYtDlpRun t.ytdlp url file with
  | (yevs, .ok _) => (yevs, .ok ())
  | (yevs, .error ye) =>
    let evs2 := yevs ++ [.err "Audio download with yt-dlp failed, trying axios..."]
    match downloadFileRun t.direct url file with
    | (evs, .ok _) => (evs2 ++ evs, .ok ())
    | (evs, .error ae) =>
        (evs2 ++ evs
           ++ [.err ("Audio download failed with both methods: " ++ ae)],
         .error ("Audio download failed: " ++ ye))

/-- `mergeVideoAudio` driven by fluent-ffmpeg lifecycle events: start (logs
the command line the library reports), progress (truthy percents only), then
end or error. -/
def mergeVideoAudioRun (r : Except String Unit) (cmdLine : String)
    (progress : List Nat) (outFile : String) : List Ev × Except String Unit :=
  let pre : List Ev :=
    [.out "Merging video and audio...", .out ("FFmpeg command: " ++ cmdLine)]
  let pev : List Ev :=
    (progress.filter (fun p => p ≠ 0)).map
      (fun p => .out ("Merging progress: " ++ toString p ++ "%"))
  match r with
  | .ok _ => (pre ++ pev ++ [.out ("Merged video saved: " ++ outFile)], .ok ())
  | .error m => (pre ++ pev ++ [.err ("FFmpeg error: " ++ m)], .error m)

/-- `cleanupFiles(filePaths)`: for each path in order, remove it if it
currently exists; a removal error is logged (`console.warn`) and never
re-thrown. -/
def cleanupFilesRun (pathExists : String → Bool)
    (removeR : String → Except String Unit) : List String → List Ev
  | [] => []
  | q :: ps =>
    (if pathExists q then
       match removeR q with
       | .ok _ => [.remove q, .out ("Cleaned up: " ++ q)]
       | .error m => [.err ("Could not clean up " ++ q ++ ": " ++ m)]
     else []) ++ cleanupFilesRun pathExists removeR ps

/-- JS `s || d` for an optional string: an absent or empty (falsy) string
falls back to the default. -/
def jsOr (s : Option String) (d : String) : String :=
  match s with
  | none => d
  | some t => if t = "" then d else t

/-- The characters stripped by the title sanitizer regex. -/
def badChar (c : Char) : Bool :=
  c = '\\' || c = '/' || c = ':' || c = '*' || c = '?' || c = '"' ||
  c = '<' || c = '>' || c = '|'

/-- `(entry.title || 'bilibili_video').replace(/[\\/:*?"<>|]+/g, '').slice(0, 80)`. -/
def baseTitleOf (title : Option String) : String :=
  (((jsOr title "bilibili_video").toList.filter (fun c => !(badChar c))).take 80).asString

/-- `` `${baseTitle}_720p.${v.ext || 'mp4'}` ``. -/
def videoFileOf (title : Option String) (v : Format) : String :=
  baseTitleOf title ++ "_720p." ++ jsOr v.ext "mp4"

/-- `` `${baseTitle}_audio.${a.ext || 'm4a'}` ``. -/
def audioFileOf (title : Option String) (a : Format) : String :=
  baseTitleOf title ++ "_audio." ++ jsOr a.ext "m4a"

/-- `` `${baseTitle}_720p_merged.mp4` ``. -/
def mergedFileOf (title : Option String) : String :=
  baseTitleOf title ++ "_720p_merged.mp4"

/-- The literal manually-runnable merge command placed in the fallback
report's `howToMerge` field. -/
def ffmpegCmdOf (v a : Format) (mergedFile : String) : String :=
  "ffmpeg -y -i \"" ++ v.url ++ "\" -i \"" ++ a.url ++ "\" -c copy \""
    ++ mergedFile ++ "\""

/-- JS template interpolation of a possibly-missing number. -/
def jsNumStr (o : Option Int) : String :=
  match o with
  | some n => toString n
  | none => "undefined"

/-- JS template interpolation of a possibly-missing string. -/
def jsStrStr (o : Option String) : String :=
  match o with
  | some t => t
  | none => "undefined"

/-- `${a.abr || 'unknown'}`: a falsy (absent or 0) audio bitrate prints as
"unknown". -/
def abrStr (a : Format) : String :=
  match a.abr with
  | some n => if n = 0 then "unknown" else toString n
  | none => "unknown"

/-- The (first) metadata entry the orchestrator processes. -/
structure Entry where
  title : Option String
  formats : List Format
deriving Repr, DecidableEq

/-- Environment oracle for one whole run: the metadata resolution result, the
two track oracles, ffmpeg behaviour, and the filesystem at cleanup time. -/
structure RunOracle where
  meta : Except String Entry
  video : TrackOracle
  audio : TrackOracle
  mergeCmdLine : String
  mergeProgress : List Nat
  mergeR : Except String Unit
  pathExists : String → Bool
  removeR : String → Except String Unit

/-- `Promise.all` over the two download jobs: it rejects iff either job
rejects.  (The runtime surfaces the temporally first rejection; the model
deterministically surfaces the video job's — no verified property depends on
which message is surfaced.) -/
def jointError : Except String Unit → Except String Unit → Option String
  | .error e, _ => some e
  | .ok _, .error e => some e
  | .ok _, .ok _ => none

/-- The diagnostic `console.log` lines at the top of the dash branch
(install.bat variant lines 301–314). -/
def dashPre (v a : Format) : List Ev :=
  [.out "DASH format detected - downloading and merging video and audio...",
   .out ("Video: " ++ jsNumStr v.height ++ "p, " ++ jsStrStr v.ext),
   .out ("Audio: " ++ abrStr a ++ "kbps, " ++ jsStrStr a.ext),
   .out "Starting downloads...",
   .out "Downloading video...",
   .out "Downloading audio..."]

/-- The dash branch of the main IIFE (install.bat variant lines 288–378):
download both tracks, merge, clean up, report; on a download or merge
failure, clean up and emit the dash-fallback report instead.  The event lists
of the two concurrent jobs are serialised video-first; at runtime they
interleave, which none of the verified properties depend on. -/
def dashRun (o : RunOracle) (title : Option String) (v a : Format) :
    List Ev × Nat :=
  let vf := videoFileOf title v
  let af := audioFileOf title a
  let mf := mergedFileOf title
  let vr := videoJobRun o.video v.url vf
  let ar := audioJobRun o.audio a.url af
  let dEvs := dashPre v a ++ vr.1 ++ ar.1
  match jointError vr.2 ar.2 with
  | some e =>
      (dEvs ++ [.err ("Error during download/merge process: " ++ e)]
         ++ cleanupFilesRun o.pathExists o.removeR [vf, af]
         ++ [.outJson (.dashFallback v.url a.url (ffmpegCmdOf v a mf))], 0)
  | none =>
      let mr := mergeVideoAudioRun o.mergeR o.mergeCmdLine o.mergeProgress mf
      match mr.2 with
      | .ok _ =>
          (dEvs ++ [.out "Both video and audio downloaded successfully!"] ++ mr.1
             ++ cleanupFilesRun o.pathExists o.removeR [vf, af]
             ++ [.outJson (.merged mf)], 0)
      | .error m =>
          (dEvs ++ [.out "Both video and audio downloaded successfully!"] ++ mr.1
             ++ [.err ("Error during download/merge process: " ++ m)]
             ++ cleanupFilesRun o.pathExists o.removeR [vf, af]
             ++ [.outJson (.dashFallback v.url a.url (ffmpegCmdOf v a mf))], 0)

/-- The main IIFE: metadata resolution and selection failures reach the outer
catch, which logs to stderr and calls `process.exit(2)`; every other path
ends the process normally (exit code 0). -/
def mainRun (o : RunOracle) : List Ev × Nat :=
  match o.meta with
  | .error m => ([.err ("Error: " ++ m)], 2)
  | .ok entry =>
    if entry.formats.isEmpty then
      ([.err "Error: No formats found."], 2)
    else
      match pickFormats entry.formats with
      | none => ([.err "Error: Could not find a <=720p format."], 2)
      | some (.progressive f) =>
          ([.outJson (.progressive f.height f.ext f.url)], 0)
      | some (.dash v a) => dashRun o entry.title v a

/-- The dash path's download or merge step fails: either `Promise.all` over
the two jobs rejects, or it resolves and the ffmpeg merge fails. -/
def DashStepFails (o : RunOracle) (title : Option String) (v a : Format) : Prop :=
  (∃ e, jointError (videoJobRun o.video v.url (videoFileOf title v)).2
          (audioJobRun o.audio a.url (audioFileOf title a)).2 = some e)
  ∨ (jointError (videoJobRun o.video v.url (videoFileOf title v)).2
        (audioJobRun o.audio a.url (audioFileOf title a)).2 = none
     ∧ ∃ m, o.mergeR = .error m)

/-- Fixture: a track whose direct download succeeds at once and whose
delegated download would also succeed. -/
def okTrack : TrackOracle := ⟨fun _ => .reqOk .finished, .ok ()⟩

/-- Fixture: a track whose every direct attempt hits a transport error and
whose delegated download also fails. -/
def failTrack : TrackOracle := ⟨fun _ => .reqError "timeout" none, .error "boom"⟩

/-- Fixture: every attempt's 2xx response dies with a write-stream error. -/
def writeErrOracle : Nat → RequestPhase := fun _ => .reqOk (.writeError "EPIPE")

/-- Fixture: first attempt rejected, second attempt succeeds. -/
def retryOkOracle : Nat → RequestPhase :=
  fun i => if i = 1 then .reqError "socket hang up" none else .reqOk .finished

/-- Fixture: first attempt rejected with HTTP 403, second attempt succeeds. -/
def retry403Oracle : Nat → RequestPhase :=
  fun i => if i = 1 then .reqError "Request failed with status code 403" (some 403)
           else .reqOk .finished

/-- Fixture: a dash-selecting metadata entry. -/
def dashEntry : Entry := ⟨some "Demo", [fmtVid720, fmtAud]⟩

/-- Fixture: a full run in which everything succeeds. -/
def oracleMergedOk : RunOracle :=
  ⟨.ok dashEntry, okTrack, okTrack, "ffmpeg -i v -i a out", [50, 100], .ok (),
   fun _ => true, fun _ => .ok ()⟩

/-- Fixture: a run whose downloads succeed but whose merge fails. -/
def oracleMergeFail : RunOracle :=
  ⟨.ok dashEntry, okTrack, okTrack, "ffmpeg -i v -i a out", [], .error "exit 1",
   fun _ => true, fun _ => .ok ()⟩

/-- Fixture: a run in which both tracks fail by both methods. -/
def oracleDownloadFail : RunOracle :=
  ⟨.ok dashEntry, failTrack, failTrack, "", [], .ok (),
   fun _ => true, fun _ => .ok ()⟩

/-- Fixture: metadata resolution fails. -/
def oracleMetaFail : RunOracle :=
  ⟨.error "yt-dlp exited with code 1", okTrack, okTrack, "", [], .ok (),
   fun _ => false, fun _ => .ok ()⟩

/-- Fixture: metadata resolves but no candidate satisfies the selector. -/
def oracleNoSelection : RunOracle :=
  ⟨.ok ⟨some "Demo", [fmtAud]⟩, okTrack, okTrack, "", [], .ok (),
   fun _ => false, fun _ => .ok ()⟩

/-- No two distinct elements of `l` compare equal under `le` (the comparator
is strict between distinct elements of `l`). -/
def NoTies (le : Format → Format → Bool) (l : List Format) : Prop :=
  ∀ a ∈ l, ∀ b ∈ l, le a b = true → le b a = true → a = b

theorem insertSorted_perm (le : Format → Format → Bool) (x : Format)
    (l : List Format) : (insertSorted le x l).Perm (x :: l) := by
  induction l with
  | nil => exact List.Perm.refl _
  | cons y ys ih =>
    cases h : le x y with
    | true => simp [insertSorted, h]
    | false =>
      simp only [insertSorted, h, Bool.false_eq_true, if_false]
      exact (ih.cons y).trans (List.Perm.swap x y ys)

theorem stableSort_perm (le : Format → Format → Bool) (l : List Format) :
    (stableSort le l).Perm l := by
  induction l with
  | nil => exact List.Perm.refl _
  | cons x xs ih =>
    exact (insertSorted_perm le x (stableSort le xs)).trans (ih.cons x)

theorem pairwise_insertSorted (le : Format → Format → Bool) (x : Format)
    (l : List Format)
    (htot : ∀ a b, le a b = true ∨ le b a = true)
    (htr : ∀ a ∈ x :: l, ∀ b ∈ x :: l, ∀ c ∈ x :: l,
      le a b = true → le b c = true → le a c = true)
    (hp : l.Pairwise (fun a b => le a b = true)) :
    (insertSorted le x l).Pairwise (fun a b => le a b = true) := by
  induction l with
  | nil => simp [insertSorted]
  | cons y ys ih =>
    rw [List.pairwise_cons] at hp
    obtain ⟨hy, hys⟩ := hp
    cases h : le x y with
    | true =>
      simp only [insertSorted, h, if_true]
      refine List.Pairwise.cons ?_ (List.Pairwise.cons hy hys)
      intro b hb
      rcases List.mem_cons.mp hb with hb | hb
      · exact hb ▸ h
      · exact htr x (by simp) y (by simp) b (by simp [hb]) h (hy b hb)
    | false =>
      simp only [insertSorted, h, Bool.false_eq_true, if_false]
      have hyx : le y x = true := by
        rcases htot x y with h' | h'
        · exact absurd h' (by simp [h])
        · exact h'
      refine List.Pairwise.cons ?_ ?_
      · intro b hb
        rcases List.mem_cons.mp ((insertSorted_perm le x ys).mem_iff.mp hb) with hb | hb
        · exact hb ▸ hyx
        · exact hy b hb
      · refine ih ?_ hys
        intro a ha b hb c hc
        refine htr a ?_ b ?_ c ?_
        · rcases List.mem_cons.mp ha with h' | h' <;> simp [h']
        · rcases List.mem_cons.mp hb with h' | h' <;> simp [h']
        · rcases List.mem_cons.mp hc with h' | h' <;> simp [h']

theorem pairwise_stableSort (le : Format → Format → Bool) (l : List Format)
    (htot : ∀ a b, le a b = true ∨ le b a = true)
    (htr : ∀ a ∈ l, ∀ b ∈ l, ∀ c ∈ l,
      le a b = true → le b c = true → le a c = true) :
    (stableSort le l).Pairwise (fun a b => le a b = true) := by
  induction l with
  | nil => simp [stableSort]
  | cons x xs ih =>
    have hsub : ∀ a ∈ stableSort le xs, a ∈ x :: xs := by
      intro a ha
      exact List.mem_cons_of_mem x ((stableSort_perm le xs).subset ha)
    refine pairwise_insertSorted le x (stableSort le xs) htot ?_ ?_
    · intro a ha b hb c hc
      refine htr a ?_ b ?_ c ?_
      · rcases List.mem_cons.mp ha with h' | h'
        · simp [h']
        · exact hsub a h'
      · rcases List.mem_cons.mp hb with h' | h'
        · simp [h']
        · exact hsub b h'
      · rcases List.mem_cons.mp hc with h' | h'
        · simp [h']
        · exact hsub c h'
    · refine ih ?_
      intro a ha b hb c hc
      exact htr a (List.mem_cons_of_mem x ha) b (List.mem_cons_of_mem x hb)
        c (List.mem_cons_of_mem x hc)

theorem stableSort_head_le (le : Format → Format → Bool) (l : List Format)
    (htot : ∀ a b, le a b = true ∨ le b a = true)
    (htr : ∀ a ∈ l, ∀ b ∈ l, ∀ c ∈ l,
      le a b = true → le b c = true → le a c = true)
    {v : Format} {t : List Format} (h : stableSort le l = v :: t) :
    ∀ x ∈ l, le v x = true := by
  intro x hx
  have hx0 : x ∈ stableSort le l := (stableSort_perm le l).symm.subset hx
  rw [h] at hx0
  rcases List.mem_cons.mp hx0 with hx0 | hx0
  · subst hx0
    rcases htot x x with h' | h' <;> exact h'
  · have hp := pairwise_stableSort le l htot htr
    rw [h, List.pairwise_cons] at hp
    exact hp.1 x hx0

theorem stableSort_head_eq (le : Format → Format → Bool)
    {l l' : List Format} (hp : l.Perm l')
    (htot : ∀ a b, le a b = true ∨ le b a = true)
    (htr : ∀ a ∈ l, ∀ b ∈ l, ∀ c ∈ l,
      le a b = true → le b c = true → le a c = true)
    (hnt : NoTies le l) :
    (stableSort le l).head? = (stableSort le l').head? := by
  have htr' : ∀ a ∈ l', ∀ b ∈ l', ∀ c ∈ l',
      le a b = true → le b c = true → le a c = true := by
    intro a ha b hb c hc
    exact htr a (hp.mem_iff.mpr ha) b (hp.mem_iff.mpr hb) c (hp.mem_iff.mpr hc)
  cases h : stableSort le l with
  | nil =>
    have hl : l = [] := by
      have : l.Perm [] := by rw [← h]; exact (stableSort_perm le l).symm
      exact this.eq_nil
    have hl' : l' = [] := by
      have : l'.Perm [] := by rw [← hl]; exact hp.symm
      exact this.eq_nil
    rw [hl', stableSort]
  | cons v t =>
    cases h' : stableSort le l' with
    | nil =>
      have hl' : l' = [] := by
        have : l'.Perm [] := by rw [← h']; exact (stableSort_perm le l').symm
        exact this.eq_nil
      have hl : l = [] := by
        have : l.Perm [] := by rw [← hl']; exact hp
        exact this.eq_nil
      rw [hl, stableSort] at h
      exact absurd h (by simp)
    | cons v' t' =>
      have hv : v ∈ l := by
        have : v ∈ stableSort le l := by rw [h]; exact List.mem_cons_self v t
        exact (stableSort_perm le l).subset this
      have hv' : v' ∈ l := by
        have hm : v' ∈ stableSort le l' := by rw [h']; exact List.mem_cons_self v' t'
        exact hp.mem_iff.mpr ((stableSort_perm le l').subset hm)
      have h1 : le v v' = true := stableSort_head_le le l htot htr h v' hv'
      have h2 : le v' v = true :=
        stableSort_head_le le l' htot htr' h' v (hp.mem_iff.mp hv)
      rw [hnt v hv v' hv' h1 h2]
      rfl

/-- Characterization of the muxed-sort comparator when both heights are
numeric: `a` sorts before-or-equal `b` iff `a` has the strictly larger height,
or equal heights and at least `b`'s (defaulted) total bitrate. -/
theorem progLe_iff_some {a b : Format} {x y : Int}
    (ha : a.height = some x) (hb : b.height = some y) :
    progLe a b = true ↔ (y < x ∨ (y = x ∧ tbr0 b ≤ tbr0 a)) := by
  unfold progLe
  rw [ha, hb]
  show (if y - x ≠ 0 then decide (y - x < 0) else decide (tbr0 b - tbr0 a ≤ 0))
      = true ↔ _
  by_cases c : y - x ≠ 0
  · rw [if_pos c]
    simp only [decide_eq_true_eq]
    omega
  · rw [if_neg c]
    simp only [decide_eq_true_eq]
    omega

/-- When either height is missing, the JS height difference is NaN (falsy), so
the comparator falls through to the bitrate term. -/
theorem progLe_iff_none {a b : Format}
    (h : a.height = none ∨ b.height = none) :
    progLe a b = true ↔ tbr0 b ≤ tbr0 a := by
  unfold progLe
  rcases h with h | h
  · rw [h]
    cases hb : b.height with
    | none =>
      show decide (tbr0 b - tbr0 a ≤ 0) = true ↔ _
      simp only [decide_eq_true_eq]
      omega
    | some y =>
      show decide (tbr0 b - tbr0 a ≤ 0) = true ↔ _
      simp only [decide_eq_true_eq]
      omega
  · rw [h]
    cases ha : a.height with
    | none =>
      show decide (tbr0 b - tbr0 a ≤ 0) = true ↔ _
      simp only [decide_eq_true_eq]
      omega
    | some x =>
      show decide (tbr0 b - tbr0 a ≤ 0) = true ↔ _
      simp only [decide_eq_true_eq]
      omega

/-- Characterization of the audio-sort comparator: descending (abr, tbr) with
missing bitrates defaulted to 0. -/
theorem audioLe_iff {a b : Format} :
    audioLe a b = true ↔
      (abr0 b < abr0 a ∨ (abr0 b = abr0 a ∧ tbr0 b ≤ tbr0 a)) := by
  unfold audioLe
  by_cases c : abr0 b - abr0 a ≠ 0
  · rw [if_pos c]
    simp only [decide_eq_true_eq]
    omega
  · rw [if_neg c]
    simp only [decide_eq_true_eq]
    omega

theorem progLe_total (a b : Format) : progLe a b = true ∨ progLe b a = true := by
  cases ha : a.height with
  | none =>
    rw [progLe_iff_none (Or.inl ha), progLe_iff_none (Or.inr ha)]
    omega
  | some x =>
    cases hb : b.height with
    | none =>
      rw [progLe_iff_none (Or.inr hb), progLe_iff_none (Or.inl hb)]
      omega
    | some y =>
      rw [progLe_iff_some ha hb, progLe_iff_some hb ha]
      omega

theorem audioLe_total (a b : Format) : audioLe a b = true ∨ audioLe b a = true := by
  rw [audioLe_iff, audioLe_iff]
  omega

theorem progLe_trans {a b c : Format}
    (ha : a.height.isSome) (hb : b.height.isSome) (hc : c.height.isSome)
    (h1 : progLe a b = true) (h2 : progLe b c = true) : progLe a c = true := by
  obtain ⟨xa, hxa⟩ := Option.isSome_iff_exists.mp ha
  obtain ⟨xb, hxb⟩ := Option.isSome_iff_exists.mp hb
  obtain ⟨xc, hxc⟩ := Option.isSome_iff_exists.mp hc
  rw [progLe_iff_some hxa hxb] at h1
  rw [progLe_iff_some hxb hxc] at h2
  rw [progLe_iff_some hxa hxc]
  omega

theorem audioLe_trans {a b c : Format}
    (h1 : audioLe a b = true) (h2 : audioLe b c = true) : audioLe a c = true := by
  rw [audioLe_iff] at h1 h2 ⊢
  omega

/-- Every muxed (`prog`) candidate has a numeric height: transitivity of the
sort comparator holds on the filtered list the source actually sorts. -/
theorem progPred_height_isSome {f : Format} (h : progPred f = true) :
    f.height.isSome := by
  have h3 : heightNumLe720 f = true := by
    unfold progPred at h
    exact (Bool.and_eq_true .. ▸ h).2
  unfold heightNumLe720 at h3
  cases hf : f.height with
  | none => rw [hf] at h3; exact absurd h3 (by simp)
  | some v => simp

theorem videoOnlyPred_height_isSome {f : Format} (h : videoOnlyPred f = true) :
    f.height.isSome := by
  have h3 : heightNumLe720 f = true := by
    unfold videoOnlyPred at h
    exact (Bool.and_eq_true .. ▸ h).2
  unfold heightNumLe720 at h3
  cases hf : f.height with
  | none => rw [hf] at h3; exact absurd h3 (by simp)
  | some v => simp

theorem heightNumLe720_spec {f : Format} (h : heightNumLe720 f = true) :
    ∃ hh, f.height = some hh ∧ hh ≤ 720 := by
  unfold heightNumLe720 at h
  cases hf : f.height with
  | none => rw [hf] at h; exact absurd h (by simp)
  | some v =>
    rw [hf] at h
    exact ⟨v, rfl, by simpa using h⟩

theorem mem_of_head?_eq {l : List Format} {v : Format} (h : l.head? = some v) :
    v ∈ l := by
  cases l with
  | nil => exact absurd h (by simp)
  | cons w t =>
    simp only [List.head?_cons, Option.some.injEq] at h
    rw [← h]
    exact List.mem_cons_self w t

theorem stableSort_head?_mem {le : Format → Format → Bool} {l : List Format}
    {v : Format} (h : (stableSort le l).head? = some v) : v ∈ l :=
  (stableSort_perm le l).subset (mem_of_head?_eq h)

/-- Restricted transitivity of `progLe` on a list of candidates that all carry
a numeric height (as both the `prog` and the `videos` filtered lists do). -/
theorem progLe_trans_on {l : List Format}
    (hs : ∀ f ∈ l, f.height.isSome) :
    ∀ a ∈ l, ∀ b ∈ l, ∀ c ∈ l,
      progLe a b = true → progLe b c = true → progLe a c = true := by
  intro a ha b hb c hc h1 h2
  exact progLe_trans (hs a ha) (hs b hb) (hs c hc) h1 h2

theorem filter_progPred_heights (l : List Format) :
    ∀ f ∈ l.filter progPred, f.height.isSome := by
  intro f hf
  exact progPred_height_isSome (List.mem_filter.mp hf).2

theorem filter_videoOnlyPred_heights (l : List Format) :
    ∀ f ∈ l.filter videoOnlyPred, f.height.isSome := by
  intro f hf
  exact videoOnlyPred_height_isSome (List.mem_filter.mp hf).2

/-- If `pickFormats` returns a progressive pick, that pick is a muxed ≤720p
candidate drawn from the input list. -/
theorem pickFormats_progressive_spec {l : List Format} {v : Format}
    (h : pickFormats l = some (.progressive v)) :
    progPred v = true ∧ v ∈ l := by
  unfold pickFormats at h
  cases hh : (stableSort progLe (l.filter progPred)).head? with
  | some w =>
    rw [hh] at h
    simp only [Option.some.injEq, Selection.progressive.injEq] at h
    subst h
    have hw := List.mem_filter.mp (stableSort_head?_mem hh)
    exact ⟨hw.2, hw.1⟩
  | none =>
    rw [hh] at h
    cases h2 : (stableSort progLe (l.filter videoOnlyPred)).head? with
    | some w =>
      cases h3 : (stableSort audioLe (l.filter audioOnlyPred)).head? with
      | some u => rw [h2, h3] at h; exact absurd h (by simp)
      | none => rw [h2, h3] at h; exact absurd h (by simp)
    | none =>
      cases h3 : (stableSort audioLe (l.filter audioOnlyPred)).head? with
      | some u => rw [h2, h3] at h; exact absurd h (by simp)
      | none => rw [h2, h3] at h; exact absurd h (by simp)

/-- If `pickFormats` returns a dash pick, the video side is a video-only ≤720p
candidate and the audio side an audio-only candidate, both from the input. -/
theorem pickFormats_dash_spec {l : List Format} {v a : Format}
    (h : pickFormats l = some (.dash v a)) :
    videoOnlyPred v = true ∧ v ∈ l ∧ audioOnlyPred a = true ∧ a ∈ l := by
  unfold pickFormats at h
  cases hh : (stableSort progLe (l.filter progPred)).head? with
  | some w => rw [hh] at h; exact absurd h (by simp)
  | none =>
    rw [hh] at h
    cases h2 : (stableSort progLe (l.filter videoOnlyPred)).head? with
    | some w =>
      cases h3 : (stableSort audioLe (l.filter audioOnlyPred)).head? with
      | some u =>
        rw [h2, h3] at h
        simp only [Option.some.injEq, Selection.dash.injEq] at h
        obtain ⟨hv, ha⟩ := h
        subst hv; subst ha
        have hw := List.mem_filter.mp (stableSort_head?_mem h2)
        have hu := List.mem_filter.mp (stableSort_head?_mem h3)
        exact ⟨hw.2, hw.1, hu.2, hu.1⟩
      | none => rw [h2, h3] at h; exact absurd h (by simp)
    | none =>
      cases h3 : (stableSort audioLe (l.filter audioOnlyPred)).head? with
      | some u => rw [h2, h3] at h; exact absurd h (by simp)
      | none => rw [h2, h3] at h; exact absurd h (by simp)

theorem progPred_height_le720 {f : Format} (h : progPred f = true) :
    ∃ hh, f.height = some hh ∧ hh ≤ 720 := by
  have h3 : heightNumLe720 f = true := by
    unfold progPred at h
    exact (Bool.and_eq_true .. ▸ h).2
  exact heightNumLe720_spec h3

theorem videoOnlyPred_height_le720 {f : Format} (h : videoOnlyPred f = true) :
    ∃ hh, f.height = some hh ∧ hh ≤ 720 := by
  have h3 : heightNumLe720 f = true := by
    unfold videoOnlyPred at h
    exact (Bool.and_eq_true .. ▸ h).2
  exact heightNumLe720_spec h3

/-- `pickFormats` on any two-element list of muxed ≤720p candidates keeps the
comparator-smaller element (input order breaking comparator ties). -/
theorem pickFormats_pair_prog {a b : Format} (hpa : progPred a = true)
    (hpb : progPred b = true) :
    pickFormats [a, b] = some (.progressive (if progLe a b then a else b)) := by
  unfold pickFormats
  have hf : [a, b].filter progPred = [a, b] := by
    simp [List.filter, hpa, hpb]
  rw [hf]
  cases h : progLe a b with
  | true => simp [stableSort, insertSorted, h]
  | false => simp [stableSort, insertSorted, h]

theorem pickFormats_nil : pickFormats [] = none := rfl

theorem mergeVideoAudioRun_snd (r : Except String Unit) (c : String)
    (p : List Nat) (f : String) : (mergeVideoAudioRun r c p f).2 = r := by
  cases r with
  | ok u => cases u; rfl
  | error m => rfl

/-- Every branch of the dash path ends the process normally. -/
theorem dashRun_snd (o : RunOracle) (title : Option String) (v a : Format) :
    (dashRun o title v a).2 = 0 := by
  unfold dashRun
  dsimp only
  split
  · rfl
  · split <;> rfl

theorem jsonFilter_map_out {α : Type} (g : α → String) (l : List α) :
    ((l.map (fun x => Ev.out (g x))).filter isJsonEv) = [] := by
  induction l with
  | nil => rfl
  | cons x xs ih => simp [isJsonEv, ih]

theorem jsonFilter_reqErrorEvents (f m : String) (st : Option Nat) (i : Nat) :
    (reqErrorEvents f m st i).filter isJsonEv = [] := by
  unfold reqErrorEvents
  cases st with
  | none => rfl
  | some v => by_cases h : v = 403 <;> simp [h, isJsonEv]

theorem jsonFilter_downloadFileGo (oracle : Nat → RequestPhase) (f : String)
    (retries : Nat) :
    ∀ fuel attempt,
      ((downloadFileGo oracle f retries attempt fuel).1).filter isJsonEv = [] := by
  intro fuel
  induction fuel with
  | zero => intro attempt; rfl
  | succ n ih =>
    intro attempt
    unfold downloadFileGo
    cases ho : oracle attempt with
    | reqOk str => cases str <;> simp [isJsonEv]
    | reqError m st =>
      by_cases h : attempt = retries
      · simp [h, List.filter_append, jsonFilter_reqErrorEvents, isJsonEv]
      · simp [h, List.filter_append, jsonFilter_reqErrorEvents, isJsonEv, ih]

theorem jsonFilter_downloadFileRun (oracle : Nat → RequestPhase) (u f : String) :
    ((downloadFileRun oracle u f).1).filter isJsonEv = [] := by
  unfold downloadFileRun
  simp [List.filter_append, jsonFilter_downloadFileGo, isJsonEv]

theorem jsonFilter_ytdlpRun (r : Except String Unit) (u f : String) :
    ((downloadFileWithYtDlpRun r u f).1).filter isJsonEv = [] := by
  cases r <;> simp [downloadFileWithYtDlpRun, isJsonEv]

theorem jsonFilter_videoJobRun (t : TrackOracle) (u f : String) :
    ((videoJobRun t u f).1).filter isJsonEv = [] := by
  unfold videoJobRun
  rcases hd : downloadFileRun t.direct u f with ⟨evs, r⟩
  have hevs : evs.filter isJsonEv = [] := by
    have h0 := jsonFilter_downloadFileRun t.direct u f
    rw [hd] at h0
    exact h0
  cases r with
  | ok u' => simpa using hevs
  | error e =>
    rcases hy : downloadFileWithYtDlpRun t.ytdlp u f with ⟨yevs, yr⟩
    have hyevs : yevs.filter isJsonEv = [] := by
      have h0 := jsonFilter_ytdlpRun t.ytdlp u f
      rw [hy] at h0
      exact h0
    cases yr with
    | ok u' => simp [List.filter_append, hevs, hyevs, isJsonEv]
    | error m => simp [List.filter_append, hevs, hyevs, isJsonEv]

theorem jsonFilter_audioJobRun (t : TrackOracle) (u f : String) :
    ((audioJobRun t u f).1).filter isJsonEv = [] := by
  unfold audioJobRun
  rcases hy : downloadFileWithYtDlpRun t.ytdlp u f with ⟨yevs, yr⟩
  have hyevs : yevs.filter isJsonEv = [] := by
    have h0 := jsonFilter_ytdlpRun t.ytdlp u f
    rw [hy] at h0
    exact h0
  cases yr with
  | ok u' => simpa using hyevs
  | error ye =>
    rcases hd : downloadFileRun t.direct u f with ⟨evs, r⟩
    have hevs : evs.filter isJsonEv = [] := by
      have h0 := jsonFilter_downloadFileRun t.direct u f
      rw [hd] at h0
      exact h0
    cases r with
    | ok u' => simp [List.filter_append, hevs, hyevs, isJsonEv]
    | error ae => simp [List.filter_append, hevs, hyevs, isJsonEv]

theorem jsonFilter_mergeRun (r : Except String Unit) (c : String) (p : List Nat)
    (f : String) : ((mergeVideoAudioRun r c p f).1).filter isJsonEv = [] := by
  cases r <;>
    simp [mergeVideoAudioRun, List.filter_append, isJsonEv, jsonFilter_map_out]

theorem jsonFilter_cleanup (pe : String → Bool) (rm : String → Except String Unit) :
    ∀ ps, (cleanupFilesRun pe rm ps).filter isJsonEv = [] := by
  intro ps
  induction ps with
  | nil => rfl
  | cons q qs ih =>
    unfold cleanupFilesRun
    by_cases h : pe q = true
    · cases hr : rm q <;> simp [h, hr, isJsonEv, List.filter_append, ih]
    · simp [h, List.filter_append, ih]

theorem jsonFilter_dashPre (v a : Format) : (dashPre v a).filter isJsonEv = [] := by
  simp [dashPre, isJsonEv]

/-- Each branch of the dash path prints exactly one JSON document. -/
theorem jsonCount_dashRun (o : RunOracle) (title : Option String) (v a : Format) :
    (((dashRun o title v a).1).filter isJsonEv).length = 1 := by
  unfold dashRun
  dsimp only
  split
  · simp [List.filter_append, jsonFilter_videoJobRun, jsonFilter_audioJobRun,
      jsonFilter_cleanup, jsonFilter_dashPre, isJsonEv]
  · split <;>
      simp [List.filter_append, jsonFilter_videoJobRun, jsonFilter_audioJobRun,
        jsonFilter_cleanup, jsonFilter_mergeRun, jsonFilter_dashPre, isJsonEv]

theorem remove_not_mem_map_out {α : Type} (p : String) (g : α → String)
    (l : List α) : Ev.remove p ∉ l.map (fun x => Ev.out (g x)) := by
  induction l with
  | nil => simp
  | cons x xs ih => simp [ih]

theorem remove_not_mem_reqErrorEvents (p f m : String) (st : Option Nat)
    (i : Nat) : Ev.remove p ∉ reqErrorEvents f m st i := by
  unfold reqErrorEvents
  cases st with
  | none => simp
  | some v => by_cases h : v = 403 <;> simp [h]

theorem remove_not_mem_downloadFileGo (oracle : Nat → RequestPhase)
    (f p : String) (retries : Nat) :
    ∀ fuel attempt, Ev.remove p ∉ (downloadFileGo oracle f retries attempt fuel).1 := by
  intro fuel
  induction fuel with
  | zero => intro attempt; simp [downloadFileGo]
  | succ n ih =>
    intro attempt
    unfold downloadFileGo
    cases ho : oracle attempt with
    | reqOk str => cases str <;> simp
    | reqError m st =>
      by_cases h : attempt = retries
      · simp [h, remove_not_mem_reqErrorEvents]
      · simp [h, remove_not_mem_reqErrorEvents, ih]

theorem remove_not_mem_downloadFileRun (oracle : Nat → RequestPhase)
    (u f p : String) : Ev.remove p ∉ (downloadFileRun oracle u f).1 := by
  unfold downloadFileRun
  simp [remove_not_mem_downloadFileGo oracle f p 3 3 1]

theorem remove_not_mem_ytdlpRun (r : Except String Unit) (u f p : String) :
    Ev.remove p ∉ (downloadFileWithYtDlpRun r u f).1 := by
  cases r <;> simp [downloadFileWithYtDlpRun]

theorem remove_not_mem_videoJobRun (t : TrackOracle) (u f p : String) :
    Ev.remove p ∉ (videoJobRun t u f).1 := by
  unfold videoJobRun
  rcases hd : downloadFileRun t.direct u f with ⟨evs, r⟩
  have hevs := remove_not_mem_downloadFileRun t.direct u f p
  rw [hd] at hevs
  cases r with
  | ok u' => simpa using hevs
  | error e =>
    rcases hy : downloadFileWithYtDlpRun t.ytdlp u f with ⟨yevs, yr⟩
    have hyevs := remove_not_mem_ytdlpRun t.ytdlp u f p
    rw [hy] at hyevs
    cases yr with
    | ok u' => simp_all
    | error m => simp_all

theorem remove_not_mem_audioJobRun (t : TrackOracle) (u f p : String) :
    Ev.remove p ∉ (audioJobRun t u f).1 := by
  unfold audioJobRun
  rcases hy : downloadFileWithYtDlpRun t.ytdlp u f with ⟨yevs, yr⟩
  have hyevs := remove_not_mem_ytdlpRun t.ytdlp u f p
  rw [hy] at hyevs
  cases yr with
  | ok u' => simpa using hyevs
  | error ye =>
    rcases hd : downloadFileRun t.direct u f with ⟨evs, r⟩
    have hevs := remove_not_mem_downloadFileRun t.direct u f p
    rw [hd] at hevs
    cases r with
    | ok u' => simp_all
    | error ae => simp_all

theorem remove_not_mem_mergeRun (r : Except String Unit) (c : String)
    (pr : List Nat) (f p : String) :
    Ev.remove p ∉ (mergeVideoAudioRun r c pr f).1 := by
  cases r <;>
    simp [mergeVideoAudioRun, remove_not_mem_map_out]

theorem remove_not_mem_dashPre (p : String) (v a : Format) :
    Ev.remove p ∉ dashPre v a := by
  simp [dashPre]

/-- `cleanupFiles` produces a removal only for an argument path that existed. -/
theorem remove_mem_cleanup {pe : String → Bool}
    {rm : String → Except String Unit} {p : String} :
    ∀ {ps : List String},
      Ev.remove p ∈ cleanupFilesRun pe rm ps → p ∈ ps ∧ pe p = true := by
  intro ps
  induction ps with
  | nil => intro h; simp [cleanupFilesRun] at h
  | cons q qs ih =>
    intro h
    unfold cleanupFilesRun at h
    rcases List.mem_append.mp h with h | h
    · by_cases hq : pe q = true
      · rw [if_pos hq] at h
        cases hr : rm q with
        | ok u =>
          rw [hr] at h
          simp at h
          subst h
          exact ⟨List.mem_cons_self p qs, hq⟩
        | error m =>
          rw [hr] at h
          simp at h
      · rw [if_neg hq] at h
        simp at h
    · obtain ⟨h1, h2⟩ := ih h
      exact ⟨List.mem_cons_of_mem q h1, h2⟩

/-- A removal event in the dash path concerns one of the two temp files. -/
theorem remove_mem_dashRun {o : RunOracle} {title : Option String}
    {v a : Format} {p : String} (h : Ev.remove p ∈ (dashRun o title v a).1) :
    p = videoFileOf title v ∨ p = audioFileOf title a := by
  unfold dashRun at h
  dsimp only at h
  split at h
  · simp only [List.mem_append] at h
    rcases h with ((((h | h) | h) | h) | h) | h
    · exact absurd h (remove_not_mem_dashPre p v a)
    · exact absurd h (remove_not_mem_videoJobRun o.video v.url _ p)
    · exact absurd h (remove_not_mem_audioJobRun o.audio a.url _ p)
    · simp at h
    · have hc := (remove_mem_cleanup h).1
      simpa using hc
    · simp at h
  · split at h
    · simp only [List.mem_append] at h
      rcases h with (((((h | h) | h) | h) | h) | h) | h
      · exact absurd h (remove_not_mem_dashPre p v a)
      · exact absurd h (remove_not_mem_videoJobRun o.video v.url _ p)
      · exact absurd h (remove_not_mem_audioJobRun o.audio a.url _ p)
      · simp at h
      · exact absurd h (remove_not_mem_mergeRun o.mergeR o.mergeCmdLine o.mergeProgress _ p)
      · have hc := (remove_mem_cleanup h).1
        simpa using hc
      · simp at h
    · simp only [List.mem_append] at h
      rcases h with ((((((h | h) | h) | h) | h) | h) | h) | h
      · exact absurd h (remove_not_mem_dashPre p v a)
      · exact absurd h (remove_not_mem_videoJobRun o.video v.url _ p)
      · exact absurd h (remove_not_mem_audioJobRun o.audio a.url _ p)
      · simp at h
      · exact absurd h (remove_not_mem_mergeRun o.mergeR o.mergeCmdLine o.mergeProgress _ p)
      · simp at h
      · have hc := (remove_mem_cleanup h).1
        simpa using hc
      · simp at h

/-- A removal event in a whole run only happens on the dash path and concerns
one of the run's two temp files. -/
theorem mainRun_remove_spec {o : RunOracle} {p : String}
    (h : Ev.remove p ∈ (mainRun o).1) :
    ∃ entry v a, o.meta = .ok entry ∧
      pickFormats entry.formats = some (.dash v a) ∧
      (p = videoFileOf entry.title v ∨ p = audioFileOf entry.title a) := by
  unfold mainRun at h
  cases hm : o.meta with
  | error m => rw [hm] at h; simp at h
  | ok entry =>
    rw [hm] at h
    dsimp only at h
    cases hemp : entry.formats.isEmpty with
    | true => rw [hemp] at h; simp at h
    | false =>
      rw [hemp] at h
      simp only [Bool.false_eq_true, if_false] at h
      cases hpick : pickFormats entry.formats with
      | none => rw [hpick] at h; simp at h
      | some sel =>
        rw [hpick] at h
        cases sel with
        | progressive f => simp at h
        | dash v a => exact ⟨entry, v, a, rfl, hpick, remove_mem_dashRun h⟩

theorem string_append_cancel_left {a b c : String} (h : a ++ b = a ++ c) :
    b = c := by
  have hd : (a ++ b).data = (a ++ c).data := congrArg String.data h
  rw [String.data_append, String.data_append] at hd
  have he := List.append_cancel_left hd
  cases b with
  | mk db =>
    cases c with
    | mk dc =>
      simp only at he
      rw [he]

theorem videoFileOf_ne_mergedFileOf (title : Option String) (v : Format) :
    videoFileOf title v ≠ mergedFileOf title := by
  unfold videoFileOf mergedFileOf
  intro h
  rw [String.append_assoc] at h
  have h2 := string_append_cancel_left h
  have h3 : ("_720p." ++ jsOr v.ext "mp4").data = "_720p_merged.mp4".data :=
    congrArg String.data h2
  rw [String.data_append] at h3
  have h4 : ('_' :: '7' :: '2' :: '0' :: 'p' :: '.' :: (jsOr v.ext "mp4").data)
      = ('_' :: '7' :: '2' :: '0' :: 'p' :: '_' :: "merged.mp4".data) := h3
  simp at h4

theorem audioFileOf_ne_mergedFileOf (title : Option String) (a : Format) :
    audioFileOf title a ≠ mergedFileOf title := by
  unfold audioFileOf mergedFileOf
  intro h
  rw [String.append_assoc] at h
  have h2 := string_append_cancel_left h
  have h3 : ("_audio." ++ jsOr a.ext "m4a").data = "_720p_merged.mp4".data :=
    congrArg String.data h2
  rw [String.data_append] at h3
  have h4 : ('_' :: 'a' :: 'u' :: 'd' :: 'i' :: 'o' :: '.' :: (jsOr a.ext "m4a").data)
      = ('_' :: '7' :: '2' :: '0' :: 'p' :: '_' :: "merged.mp4".data) := h3
  simp at h4

/-- C1: for every format list containing at least one muxed entry (vcodec
present and not "none", acodec present and not "none") with numeric height
≤ 720, `pickFormats` returns a Progressive selection — never a Dash selection
or null — and the chosen entry is a muxed ≤720p candidate of the list, maximal
under descending (height, then tbr with absent tbr treated as 0): it sorts
before-or-equal every muxed ≤720p candidate. -/
theorem claim_C1_progressive_of_muxed (l : List Format)
    (h : ∃ f ∈ l, progPred f = true) :
    ∃ v, pickFormats l = some (.progressive v) ∧ progPred v = true ∧ v ∈ l ∧
      ∀ g ∈ l, progPred g = true → progLe v g = true := by
  obtain ⟨f, hfl, hf⟩ := h
  have hmem : f ∈ l.filter progPred := List.mem_filter.mpr ⟨hfl, hf⟩
  have hne : stableSort progLe (l.filter progPred) ≠ [] := by
    intro hc
    have hperm := stableSort_perm progLe (l.filter progPred)
    rw [hc] at hperm
    have hnil : l.filter progPred = [] := hperm.symm.eq_nil
    rw [hnil] at hmem
    simp at hmem
  obtain ⟨v, t, hvt⟩ := List.exists_cons_of_ne_nil hne
  have hhead : (stableSort progLe (l.filter progPred)).head? = some v := by
    rw [hvt]
    rfl
  have hvf := List.mem_filter.mp (stableSort_head?_mem hhead)
  refine ⟨v, ?_, hvf.2, hvf.1, ?_⟩
  · unfold pickFormats
    rw [hhead]
  · intro g hg hpg
    exact stableSort_head_le progLe (l.filter progPred) progLe_total
      (progLe_trans_on (filter_progPred_heights l)) hvt g
      (List.mem_filter.mpr ⟨hg, hpg⟩)

/-- Witness for C1: the singleton list of a concrete muxed 720p format. -/
theorem claim_C1_witness :
    ∃ v, pickFormats [fmtMux720] = some (.progressive v) ∧
      progPred v = true ∧ v ∈ [fmtMux720] ∧
      ∀ g ∈ [fmtMux720], progPred g = true → progLe v g = true :=
  claim_C1_progressive_of_muxed [fmtMux720] (by decide)

/-- C5 counterexample: the `audios` filter never inspects `height`, so a dash
selection can return an audio representation whose height exceeds 720 —
refuting "the Dash audio pick also never carries a height exceeding 720". -/
theorem claim_C5_counterexample :
    pickFormats [fmtVid720, fmtAud1080] = some (.dash fmtVid720 fmtAud1080) ∧
    fmtAud1080.height = some 1080 ∧ ¬ ((1080 : Int) ≤ 720) := by
  refine ⟨by decide, rfl, by decide⟩

/-- C5 (amended): every *video* representation returned by `pickFormats`
(the Progressive pick and the Dash video pick) has numeric height ≤ 720; the
Dash audio pick's height is unconstrained. -/
theorem claim_C5_video_height_ceiling :
    (∀ (l : List Format) (v : Format),
        pickFormats l = some (.progressive v) →
        ∃ hh, v.height = some hh ∧ hh ≤ 720) ∧
    (∀ (l : List Format) (v a : Format),
        pickFormats l = some (.dash v a) →
        ∃ hh, v.height = some hh ∧ hh ≤ 720) := by
  constructor
  · intro l v h
    exact progPred_height_le720 (pickFormats_progressive_spec h).1
  · intro l v a h
    exact videoOnlyPred_height_le720 (pickFormats_dash_spec h).1

/-- Witness for C5 (amended) at concrete selections. -/
theorem claim_C5_witness :
    (∃ hh, fmtMux720.height = some hh ∧ hh ≤ 720) ∧
    (∃ hh, fmtVid720.height = some hh ∧ hh ≤ 720) :=
  ⟨claim_C5_video_height_ceiling.1 [fmtMux720] fmtMux720 (by decide),
   claim_C5_video_height_ceiling.2 [fmtVid720, fmtAud1080] fmtVid720 fmtAud1080
     (by decide)⟩

/-- C6 counterexample: two distinct muxed formats that tie on both sort keys
(equal height, equal tbr).  The sort is stable, so the selection follows input
order: re-ordering a set-equal list changes the chosen descriptor. -/
theorem claim_C6_counterexample :
    [fmtMuxA, fmtMuxB].Perm [fmtMuxB, fmtMuxA] ∧
    pickFormats [fmtMuxA, fmtMuxB] ≠ pickFormats [fmtMuxB, fmtMuxA] := by
  constructor
  · exact List.Perm.swap fmtMuxB fmtMuxA []
  · decide

/-- C6 (amended): `pickFormats` is deterministic (same input, same output),
and re-ordered set-equal inputs yield the same selection provided no two
distinct candidates tie under the relevant comparator (no equal
(height, tbr) pair among muxed or video-only candidates, no equal (abr, tbr)
pair among audio-only candidates). -/
theorem claim_C6_pure_perm_invariant :
    (∀ l : List Format, pickFormats l = pickFormats l) ∧
    (∀ l l' : List Format, l.Perm l' →
      NoTies progLe (l.filter progPred) →
      NoTies progLe (l.filter videoOnlyPred) →
      NoTies audioLe (l.filter audioOnlyPred) →
      pickFormats l = pickFormats l') := by
  refine ⟨fun _ => rfl, ?_⟩
  intro l l' hp h1 h2 h3
  have e1 := stableSort_head_eq progLe (hp.filter progPred) progLe_total
    (progLe_trans_on (filter_progPred_heights l)) h1
  have e2 := stableSort_head_eq progLe (hp.filter videoOnlyPred) progLe_total
    (progLe_trans_on (filter_videoOnlyPred_heights l)) h2
  have e3 := stableSort_head_eq audioLe (hp.filter audioOnlyPred) audioLe_total
    (fun a _ b _ c _ hab hbc => audioLe_trans hab hbc) h3
  unfold pickFormats
  rw [e1, e2, e3]

/-- Witness for C6 (amended): a two-element reordering with distinct tbr keys. -/
theorem claim_C6_witness :
    pickFormats [fmtMux720, fmtMux720Lo] = pickFormats [fmtMux720Lo, fmtMux720] :=
  claim_C6_pure_perm_invariant.2 [fmtMux720, fmtMux720Lo] [fmtMux720Lo, fmtMux720]
    (List.Perm.swap fmtMux720Lo fmtMux720 []) (by unfold NoTies; decide)
    (by unfold NoTies; decide) (by unfold NoTies; decide)

/-- The progressive pick is maximal under the muxed comparator among all
muxed ≤720p candidates of the input list. -/
theorem pickFormats_progressive_max {l : List Format} {v : Format}
    (h : pickFormats l = some (.progressive v)) :
    ∀ g ∈ l, progPred g = true → progLe v g = true := by
  unfold pickFormats at h
  cases hh : (stableSort progLe (l.filter progPred)).head? with
  | some w =>
    rw [hh] at h
    simp only [Option.some.injEq, Selection.progressive.injEq] at h
    obtain ⟨t, hvt⟩ : ∃ t, stableSort progLe (l.filter progPred) = w :: t := by
      cases hs : stableSort progLe (l.filter progPred) with
      | nil => rw [hs] at hh; exact absurd hh (by simp)
      | cons x t =>
        rw [hs] at hh
        simp only [List.head?_cons, Option.some.injEq] at hh
        exact ⟨t, by rw [hh]⟩
    intro g hg hpg
    have hw := stableSort_head_le progLe (l.filter progPred) progLe_total
      (progLe_trans_on (filter_progPred_heights l)) hvt g
      (List.mem_filter.mpr ⟨hg, hpg⟩)
    exact h ▸ hw
  | none =>
    rw [hh] at h
    cases h2 : (stableSort progLe (l.filter videoOnlyPred)).head? with
    | some w =>
      cases h3 : (stableSort audioLe (l.filter audioOnlyPred)).head? with
      | some u => rw [h2, h3] at h; exact absurd h (by simp)
      | none => rw [h2, h3] at h; exact absurd h (by simp)
    | none =>
      cases h3 : (stableSort audioLe (l.filter audioOnlyPred)).head? with
      | some u => rw [h2, h3] at h; exact absurd h (by simp)
      | none => rw [h2, h3] at h; exact absurd h (by simp)

/-- C7 counterexample: the list [fmtMux720, fmtMux600Hi, fmtMux600Lo]
contains two muxed ≤720p formats of equal height (600) and different tbr,
yet `pickFormats` selects the higher-resolution third format — neither of
the pair — refuting the claim as quantified over *every* format list
containing such a pair. -/
theorem claim_C7_counterexample :
    progPred fmtMux600Hi = true ∧ progPred fmtMux600Lo = true ∧
    fmtMux600Hi.height = fmtMux600Lo.height ∧
    tbr0 fmtMux600Hi ≠ tbr0 fmtMux600Lo ∧
    pickFormats [fmtMux720, fmtMux600Hi, fmtMux600Lo]
      = some (.progressive fmtMux720) ∧
    fmtMux720 ≠ fmtMux600Hi ∧ fmtMux720 ≠ fmtMux600Lo := by
  decide

/-- C7 (amended): for every format list containing two muxed ≤720p formats
with equal height and different (absent-defaulted-to-0) tbr, whenever
`pickFormats` selects either of the two it selects the one with the higher
tbr, independent of input order; and for the list consisting of exactly the
two formats (in either order) that higher-tbr one is always the selection.
A missing tbr counts as 0 and therefore sorts lowest at equal height.  (In a
larger list a better-sorting third format may be selected instead of either —
see the counterexample.) -/
theorem claim_C7_tiebreak :
    (∀ (l : List Format) (a b v : Format),
       a ∈ l → b ∈ l → progPred a = true → progPred b = true →
       a.height = b.height → tbr0 a ≠ tbr0 b →
       pickFormats l = some (.progressive v) → (v = a ∨ v = b) →
       v = (if tbr0 b < tbr0 a then a else b)) ∧
    (∀ a b : Format, progPred a = true → progPred b = true →
       a.height = b.height → tbr0 a ≠ tbr0 b →
       pickFormats [a, b]
         = some (.progressive (if tbr0 b < tbr0 a then a else b)) ∧
       pickFormats [b, a]
         = some (.progressive (if tbr0 b < tbr0 a then a else b))) := by
  constructor
  · intro l a b v ha hb hpa hpb hh ht hpick hv
    obtain ⟨x, hx, _⟩ := progPred_height_le720 hpa
    obtain ⟨y, hy, _⟩ := progPred_height_le720 hpb
    have hxy : x = y := by
      rw [hx, hy] at hh
      exact Option.some.inj hh
    subst hxy
    have hmax := pickFormats_progressive_max hpick
    rcases hv with rfl | rfl
    · have h1 := hmax b hb hpb
      rcases (progLe_iff_some hx hy).mp h1 with h' | ⟨_, h'⟩
      · exact absurd h' (by omega)
      · rw [if_pos (by omega)]
    · have h1 := hmax a ha hpa
      rcases (progLe_iff_some hy hx).mp h1 with h' | ⟨_, h'⟩
      · exact absurd h' (by omega)
      · rw [if_neg (by omega)]
  · intro a b hpa hpb hh ht
    obtain ⟨x, hx, _⟩ := progPred_height_le720 hpa
    obtain ⟨y, hy, _⟩ := progPred_height_le720 hpb
    have hxy : x = y := by
      rw [hx, hy] at hh
      exact Option.some.inj hh
    subst hxy
    rw [pickFormats_pair_prog hpa hpb, pickFormats_pair_prog hpb hpa]
    rcases lt_or_gt_of_ne ht with hc | hc
    · have hab : progLe a b = false := by
        by_contra hne
        have h' : progLe a b = true := by
          cases hq : progLe a b
          · exact absurd hq hne
          · rfl
        rcases (progLe_iff_some hx hy).mp h' with h' | ⟨_, h'⟩ <;> omega
      have hba : progLe b a = true :=
        (progLe_iff_some hy hx).mpr (Or.inr ⟨rfl, le_of_lt hc⟩)
      have hc' : ¬ tbr0 b < tbr0 a := by omega
      rw [hab, hba]
      simp [hc']
    · have hab : progLe a b = true :=
        (progLe_iff_some hx hy).mpr (Or.inr ⟨rfl, le_of_lt hc⟩)
      have hba : progLe b a = false := by
        by_contra hne
        have h' : progLe b a = true := by
          cases hq : progLe b a
          · exact absurd hq hne
          · rfl
        rcases (progLe_iff_some hy hx).mp h' with h' | ⟨_, h'⟩ <;> omega
      rw [hab, hba]
      simp [hc]

/-- Witness for C7 (amended): the pair statement at tbr 1200 vs 300, and the
general statement applied to a list containing that pair. -/
theorem claim_C7_witness :
    fmtMux720
      = (if tbr0 fmtMux720Lo < tbr0 fmtMux720 then fmtMux720 else fmtMux720Lo) ∧
    (pickFormats [fmtMux720, fmtMux720Lo]
        = some (.progressive
            (if tbr0 fmtMux720Lo < tbr0 fmtMux720 then fmtMux720 else fmtMux720Lo)) ∧
     pickFormats [fmtMux720Lo, fmtMux720]
        = some (.progressive
            (if tbr0 fmtMux720Lo < tbr0 fmtMux720 then fmtMux720 else fmtMux720Lo))) :=
  ⟨claim_C7_tiebreak.1 [fmtMux720, fmtMux720Lo] fmtMux720 fmtMux720Lo fmtMux720
      (by decide) (by decide) (by decide) (by decide) rfl (by decide) (by decide)
      (Or.inl rfl),
   claim_C7_tiebreak.2 fmtMux720 fmtMux720Lo (by decide) (by decide) rfl (by decide)⟩

/-- C10: a format with missing (or non-numeric) height fails the `prog` and
`videos` filters whatever its codecs and bitrates, hence is never the video
side of a selection; the `audios` filter is height-blind. -/
theorem claim_C10_height_missing_excluded :
    (∀ f : Format, f.height = none → progPred f = false ∧ videoOnlyPred f = false) ∧
    (∀ (l : List Format) (f : Format), f.height = none →
        f ∉ l.filter progPred ∧ f ∉ l.filter videoOnlyPred) ∧
    (∀ (l : List Format) (v : Format), pickFormats l = some (.progressive v) →
        v.height ≠ none) ∧
    (∀ (l : List Format) (v a : Format), pickFormats l = some (.dash v a) →
        v.height ≠ none) ∧
    (∀ (f : Format) (oh : Option Int),
        audioOnlyPred { f with height := oh } = audioOnlyPred f) := by
  refine ⟨?_, ?_, ?_, ?_, ?_⟩
  · intro f h
    constructor
    · simp [progPred, heightNumLe720, h]
    · simp [videoOnlyPred, heightNumLe720, h]
  · intro l f h
    have h1 : progPred f = false := by simp [progPred, heightNumLe720, h]
    have h2 : videoOnlyPred f = false := by simp [videoOnlyPred, heightNumLe720, h]
    constructor
    · intro hc
      have hx := (List.mem_filter.mp hc).2
      rw [h1] at hx
      exact absurd hx (by simp)
    · intro hc
      have hx := (List.mem_filter.mp hc).2
      rw [h2] at hx
      exact absurd hx (by simp)
  · intro l v hpick
    obtain ⟨hh, hsome, _⟩ := progPred_height_le720 (pickFormats_progressive_spec hpick).1
    rw [hsome]
    simp
  · intro l v a hpick
    obtain ⟨hh, hsome, _⟩ := videoOnlyPred_height_le720 (pickFormats_dash_spec hpick).1
    rw [hsome]
    simp
  · intro f oh
    rfl

/-- Witness for C10 at concrete formats. -/
theorem claim_C10_witness :
    (progPred fmtAud = false ∧ videoOnlyPred fmtAud = false) ∧
    fmtVid720.height ≠ none ∧
    audioOnlyPred { fmtAud with height := some 99 } = audioOnlyPred fmtAud :=
  ⟨claim_C10_height_missing_excluded.1 fmtAud rfl,
   claim_C10_height_missing_excluded.2.2.2.1 [fmtVid720, fmtAud1080] fmtVid720
     fmtAud1080 (by decide),
   claim_C10_height_missing_excluded.2.2.2.2 fmtAud (some 99)⟩

/-- C2: whenever the dash path's download or merge step fails, the run first
performs best-effort cleanup of the run's two temp files (errors only logged)
and then emits the dash-fallback report carrying both raw source URLs and the
literal runnable merge command in `howToMerge`, exiting with code 0; a
metadata-resolution or selection failure instead exits with code 2 and emits
no report at all.  The cleanup segment precedes the report in the trace, and
the equations hold for every `removeR` oracle, failing ones included. -/
theorem claim_C2_fallback_and_exit_codes :
    (∀ (o : RunOracle) (entry : Entry) (v a : Format),
       o.meta = .ok entry →
       pickFormats entry.formats = some (.dash v a) →
       DashStepFails o entry.title v a →
       (∃ pre, (mainRun o).1
           = pre ++ cleanupFilesRun o.pathExists o.removeR
                 [videoFileOf entry.title v, audioFileOf entry.title a]
             ++ [.outJson (.dashFallback v.url a.url
                   (ffmpegCmdOf v a (mergedFileOf entry.title)))]) ∧
       (mainRun o).2 = 0) ∧
    (∀ (o : RunOracle) (m : String),
       o.meta = .error m →
       mainRun o = ([.err ("Error: " ++ m)], 2) ∧
       ∀ j, Ev.outJson j ∉ (mainRun o).1) ∧
    (∀ (o : RunOracle) (entry : Entry),
       o.meta = .ok entry → entry.formats = [] →
       mainRun o = ([.err "Error: No formats found."], 2) ∧
       ∀ j, Ev.outJson j ∉ (mainRun o).1) ∧
    (∀ (o : RunOracle) (entry : Entry),
       o.meta = .ok entry → entry.formats ≠ [] →
       pickFormats entry.formats = none →
       mainRun o = ([.err "Error: Could not find a <=720p format."], 2) ∧
       ∀ j, Ev.outJson j ∉ (mainRun o).1) := by
  refine ⟨?_, ?_, ?_, ?_⟩
  · intro o entry v a hm hpick hfail
    have hne : entry.formats ≠ [] := by
      intro hc
      rw [hc, pickFormats_nil] at hpick
      exact absurd hpick (by simp)
    have hemp : entry.formats.isEmpty = false := by
      cases hf : entry.formats with
      | nil => exact absurd hf hne
      | cons x xs => rfl
    have hmain : mainRun o = dashRun o entry.title v a := by
      unfold mainRun
      rw [hm]
      dsimp only
      rw [hemp]
      simp only [Bool.false_eq_true, if_false]
      rw [hpick]
    rw [hmain]
    constructor
    · unfold dashRun
      dsimp only
      rcases hfail with ⟨e, he⟩ | ⟨hnone, m, hm2⟩
      · rw [he]
        exact ⟨_, rfl⟩
      · rw [hnone]
        dsimp only
        rw [mergeVideoAudioRun_snd, hm2]
        exact ⟨_, rfl⟩
    · exact dashRun_snd o entry.title v a
  · intro o m hm
    have hmain : mainRun o = ([.err ("Error: " ++ m)], 2) := by
      unfold mainRun
      rw [hm]
    refine ⟨hmain, ?_⟩
    intro j
    rw [hmain]
    simp
  · intro o entry hm hf
    have hmain : mainRun o = ([.err "Error: No formats found."], 2) := by
      unfold mainRun
      rw [hm]
      dsimp only
      rw [hf]
      rfl
    refine ⟨hmain, ?_⟩
    intro j
    rw [hmain]
    simp
  · intro o entry hm hne hpick
    have hemp : entry.formats.isEmpty = false := by
      cases hf : entry.formats with
      | nil => exact absurd hf hne
      | cons x xs => rfl
    have hmain : mainRun o = ([.err "Error: Could not find a <=720p format."], 2) := by
      unfold mainRun
      rw [hm]
      dsimp only
      rw [hemp]
      simp only [Bool.false_eq_true, if_false]
      rw [hpick]
    refine ⟨hmain, ?_⟩
    intro j
    rw [hmain]
    simp

/-- Witness for C2: a run whose both download jobs fail (fallback report,
exit 0) and a run whose metadata resolution fails (exit 2, no report). -/
theorem claim_C2_witness :
    ((∃ pre, (mainRun oracleDownloadFail).1
        = pre ++ cleanupFilesRun oracleDownloadFail.pathExists
              oracleDownloadFail.removeR
              [videoFileOf dashEntry.title fmtVid720, audioFileOf dashEntry.title fmtAud]
          ++ [.outJson (.dashFallback fmtVid720.url fmtAud.url
                (ffmpegCmdOf fmtVid720 fmtAud (mergedFileOf dashEntry.title)))]) ∧
      (mainRun oracleDownloadFail).2 = 0) ∧
    (mainRun oracleMetaFail = ([.err ("Error: " ++ "yt-dlp exited with code 1")], 2) ∧
      ∀ j, Ev.outJson j ∉ (mainRun oracleMetaFail).1) :=
  ⟨claim_C2_fallback_and_exit_codes.1 oracleDownloadFail dashEntry fmtVid720 fmtAud
      rfl (by decide)
      (by exact Or.inl ⟨"Video download failed: timeout", by decide⟩),
   claim_C2_fallback_and_exit_codes.2.1 oracleMetaFail "yt-dlp exited with code 1" rfl⟩

/-- C3: the orchestrator tries the direct HTTP fetch first for the video track
and the delegated yt-dlp downloader only after it fails; for the audio track
the order is reversed; when both methods fail for a track the job rejects with
the error propagated, and `Promise.all` over the two jobs rejects iff either
job rejects — never silently swallowed. -/
theorem claim_C3_method_order :
    (∀ (t : TrackOracle) (u f : String),
       (downloadFileRun t.direct u f).2 = .ok () →
       videoJobRun t u f = ((downloadFileRun t.direct u f).1, .ok ())) ∧
    (∀ (t : TrackOracle) (u f e : String),
       (downloadFileRun t.direct u f).2 = .error e → t.ytdlp = .ok () →
       (videoJobRun t u f).2 = .ok () ∧
       (videoJobRun t u f).1
         = (downloadFileRun t.direct u f).1
             ++ [.err "Video download with axios failed, trying yt-dlp..."]
             ++ (downloadFileWithYtDlpRun t.ytdlp u f).1) ∧
    (∀ (t : TrackOracle) (u f e m : String),
       (downloadFileRun t.direct u f).2 = .error e → t.ytdlp = .error m →
       (videoJobRun t u f).2 = .error ("Video download failed: " ++ e)) ∧
    (∀ (t : TrackOracle) (u f : String),
       t.ytdlp = .ok () →
       audioJobRun t u f = ((downloadFileWithYtDlpRun t.ytdlp u f).1, .ok ())) ∧
    (∀ (t : TrackOracle) (u f m : String),
       t.ytdlp = .error m → (downloadFileRun t.direct u f).2 = .ok () →
       (audioJobRun t u f).2 = .ok ()) ∧
    (∀ (t : TrackOracle) (u f m e : String),
       t.ytdlp = .error m → (downloadFileRun t.direct u f).2 = .error e →
       (audioJobRun t u f).2
         = .error ("Audio download failed: " ++ ("yt-dlp download failed: " ++ m))) ∧
    (∀ vR aR : Except String Unit,
       jointError vR aR = none ↔ (vR = .ok () ∧ aR = .ok ())) := by
  refine ⟨?_, ?_, ?_, ?_, ?_, ?_, ?_⟩
  · intro t u f h
    unfold videoJobRun
    rcases hd : downloadFileRun t.direct u f with ⟨evs, r⟩
    rw [hd] at h
    cases r with
    | ok u' => cases u'; simp
    | error e => exact absurd h (by simp)
  · intro t u f e hde hy
    unfold videoJobRun
    rcases hd : downloadFileRun t.direct u f with ⟨evs, r⟩
    rw [hd] at hde
    cases r with
    | ok u' => exact absurd hde (by simp)
    | error e' =>
      have he' : e' = e := by simpa using hde
      subst he'
      constructor
      · simp [downloadFileWithYtDlpRun, hy]
      · simp [downloadFileWithYtDlpRun, hy]
  · intro t u f e m hde hym
    unfold videoJobRun
    rcases hd : downloadFileRun t.direct u f with ⟨evs, r⟩
    rw [hd] at hde
    cases r with
    | ok u' => exact absurd hde (by simp)
    | error e' =>
      have he' : e' = e := by simpa using hde
      subst he'
      simp [downloadFileWithYtDlpRun, hym]
  · intro t u f hy
    unfold audioJobRun
    simp [downloadFileWithYtDlpRun, hy]
  · intro t u f m hym hd2
    unfold audioJobRun
    rcases hd : downloadFileRun t.direct u f with ⟨evs, r⟩
    rw [hd] at hd2
    cases r with
    | error e => exact absurd hd2 (by simp)
    | ok u' => simp [downloadFileWithYtDlpRun, hym]
  · intro t u f m e hym hd2
    unfold audioJobRun
    rcases hd : downloadFileRun t.direct u f with ⟨evs, r⟩
    rw [hd] at hd2
    cases r with
    | ok u' => exact absurd hd2 (by simp)
    | error e' => simp [downloadFileWithYtDlpRun, hym]
  · intro vR aR
    rcases vR with ⟨⟨⟩⟩ | e <;> rcases aR with ⟨⟨⟩⟩ | e2 <;> simp [jointError]

/-- Witness for C3 at concrete track oracles. -/
theorem claim_C3_witness :
    videoJobRun okTrack "u" "f" = ((downloadFileRun okTrack.direct "u" "f").1, .ok ()) ∧
    (videoJobRun failTrack "u" "f").2 = .error ("Video download failed: " ++ "timeout") ∧
    audioJobRun okTrack "u2" "f2"
      = ((downloadFileWithYtDlpRun okTrack.ytdlp "u2" "f2").1, .ok ()) ∧
    (audioJobRun failTrack "u2" "f2").2
      = .error ("Audio download failed: " ++ ("yt-dlp download failed: " ++ "boom")) ∧
    (jointError (.error "E") (.ok ()) = none
      ↔ ((.error "E" : Except String Unit) = .ok () ∧ (.ok () : Except String Unit) = .ok ())) :=
  ⟨claim_C3_method_order.1 okTrack "u" "f" rfl,
   claim_C3_method_order.2.2.1 failTrack "u" "f" "timeout" "boom" rfl rfl,
   claim_C3_method_order.2.2.2.1 okTrack "u2" "f2" rfl,
   claim_C3_method_order.2.2.2.2.2.1 failTrack "u2" "f2" "boom" "timeout" rfl rfl,
   claim_C3_method_order.2.2.2.2.2.2 (.error "E") (.ok ())⟩

/-- C4 counterexample: with every 2xx response dying in a write-stream error,
`downloadFile` rejects after a single attempt — no second attempt, no backoff
sleep — refuting "a write-stream error counts as a failed attempt and the
method retries up to 3 attempts with backoff between attempts". -/
theorem claim_C4_counterexample :
    (downloadFileRun writeErrOracle "u" "f").2 = .error "EPIPE" ∧
    Ev.sleep 2000 ∉ (downloadFileRun writeErrOracle "u" "f").1 ∧
    Ev.out "Attempt 2/3 for f" ∉ (downloadFileRun writeErrOracle "u" "f").1 := by
  refine ⟨rfl, by decide, by decide⟩

/-- C4 (amended): a non-2xx HTTP status and transport-level errors raised by
the request itself count as failed attempts and are retried up to the fixed
ceiling of 3 attempts with an (attempt index × 2)-second backoff between
attempts (403 logged distinctly but retried like any other); a write-stream
(or response-stream) error after a 2xx response rejects the method
immediately, with no further attempt and no backoff. -/
theorem claim_C4_retry_behaviour :
    (∀ (oracle : Nat → RequestPhase) (u f : String),
       (∀ i, 1 ≤ i → i ≤ 3 → ∃ m st, oracle i = .reqError m st) →
       ∃ m3 st3, oracle 3 = .reqError m3 st3 ∧
         (downloadFileRun oracle u f).2 = .error m3 ∧
         Ev.sleep 2000 ∈ (downloadFileRun oracle u f).1 ∧
         Ev.sleep 4000 ∈ (downloadFileRun oracle u f).1 ∧
         Ev.out ("Attempt 3/3 for " ++ f) ∈ (downloadFileRun oracle u f).1) ∧
    (∀ (oracle : Nat → RequestPhase) (u f m : String) (st : Option Nat),
       oracle 1 = .reqError m st → oracle 2 = .reqOk .finished →
       (downloadFileRun oracle u f).2 = .ok () ∧
       Ev.sleep 2000 ∈ (downloadFileRun oracle u f).1) ∧
    (∀ (oracle : Nat → RequestPhase) (u f m : String),
       oracle 1 = .reqOk (.writeError m) →
       (downloadFileRun oracle u f).2 = .error m ∧
       ∀ ms, Ev.sleep ms ∉ (downloadFileRun oracle u f).1) ∧
    (∀ (oracle : Nat → RequestPhase) (u f m : String),
       oracle 1 = .reqError m (some 403) → oracle 2 = .reqOk .finished →
       (downloadFileRun oracle u f).2 = .ok () ∧
       Ev.err "403 Forbidden - This might be due to missing authentication or blocked access"
         ∈ (downloadFileRun oracle u f).1 ∧
       Ev.sleep 2000 ∈ (downloadFileRun oracle u f).1) := by
  refine ⟨?_, ?_, ?_, ?_⟩
  · intro oracle u f h
    obtain ⟨m1, st1, h1⟩ := h 1 (by omega) (by omega)
    obtain ⟨m2, st2, h2⟩ := h 2 (by omega) (by omega)
    obtain ⟨m3, st3, h3⟩ := h 3 (by omega) (by omega)
    have hpre : "Attempt " ++ toString (3 : Nat) ++ "/" ++ toString (3 : Nat)
        ++ " for " = "Attempt 3/3 for " := rfl
    refine ⟨m3, st3, h3, ?_, ?_, ?_, ?_⟩ <;>
      simp [downloadFileRun, downloadFileGo, h1, h2, h3, reqErrorEvents, hpre]
  · intro oracle u f m st h1 h2
    constructor <;>
      simp [downloadFileRun, downloadFileGo, h1, h2, reqErrorEvents]
  · intro oracle u f m h1
    refine ⟨?_, ?_⟩
    · simp [downloadFileRun, downloadFileGo, h1]
    · intro ms
      simp [downloadFileRun, downloadFileGo, h1]
  · intro oracle u f m h1 h2
    refine ⟨?_, ?_, ?_⟩ <;>
      simp [downloadFileRun, downloadFileGo, h1, h2, reqErrorEvents]

/-- Witness for C4 (amended) at concrete attempt oracles. -/
theorem claim_C4_witness :
    (∃ m3 st3, failTrack.direct 3 = .reqError m3 st3 ∧
       (downloadFileRun failTrack.direct "u" "f").2 = .error m3 ∧
       Ev.sleep 2000 ∈ (downloadFileRun failTrack.direct "u" "f").1 ∧
       Ev.sleep 4000 ∈ (downloadFileRun failTrack.direct "u" "f").1 ∧
       Ev.out ("Attempt 3/3 for " ++ "f") ∈ (downloadFileRun failTrack.direct "u" "f").1) ∧
    ((downloadFileRun retryOkOracle "u" "f").2 = .ok () ∧
       Ev.sleep 2000 ∈ (downloadFileRun retryOkOracle "u" "f").1) ∧
    ((downloadFileRun writeErrOracle "u3" "f3").2 = .error "EPIPE" ∧
       Ev.sleep 2000 ∉ (downloadFileRun writeErrOracle "u3" "f3").1) ∧
    ((downloadFileRun retry403Oracle "u" "f").2 = .ok () ∧
       Ev.err "403 Forbidden - This might be due to missing authentication or blocked access"
         ∈ (downloadFileRun retry403Oracle "u" "f").1 ∧
       Ev.sleep 2000 ∈ (downloadFileRun retry403Oracle "u" "f").1) :=
  ⟨claim_C4_retry_behaviour.1 failTrack.direct "u" "f"
     (fun _ _ _ => ⟨"timeout", none, rfl⟩),
   claim_C4_retry_behaviour.2.1 retryOkOracle "u" "f" "socket hang up" none rfl rfl,
   ⟨(claim_C4_retry_behaviour.2.2.1 writeErrOracle "u3" "f3" "EPIPE" rfl).1,
    (claim_C4_retry_behaviour.2.2.1 writeErrOracle "u3" "f3" "EPIPE" rfl).2 2000⟩,
   claim_C4_retry_behaviour.2.2.2 retry403Oracle "u" "f"
     "Request failed with status code 403" rfl rfl⟩

/-- C8 counterexample: in a successful dash run, diagnostic text (here the
"DASH format detected" line, printed by `console.log`) goes to standard
output alongside the JSON document — refuting "all diagnostic/progress text
goes to a separate stream, not to standard output". -/
theorem claim_C8_counterexample :
    (mainRun oracleMergedOk).2 = 0 ∧
    Ev.out "DASH format detected - downloading and merging video and audio..."
      ∈ (mainRun oracleMergedOk).1 := by
  decide

/-- C8 (amended): on every run that terminates normally (exit code 0 —
successful or degraded), exactly one JSON document is printed to standard
output; diagnostic/progress text however is also written to standard output
via `console.log`, with only warnings and errors on the error stream. -/
theorem claim_C8_single_json (o : RunOracle) (h : (mainRun o).2 = 0) :
    (((mainRun o).1).filter isJsonEv).length = 1 := by
  unfold mainRun at h ⊢
  cases hm : o.meta with
  | error m => rw [hm] at h; simp at h
  | ok entry =>
    rw [hm] at h
    dsimp only at h ⊢
    cases hemp : entry.formats.isEmpty with
    | true => rw [hemp] at h; simp at h
    | false =>
      rw [hemp] at h
      simp only [Bool.false_eq_true, if_false] at h ⊢
      cases hpick : pickFormats entry.formats with
      | none => rw [hpick] at h; simp at h
      | some sel =>
        rw [hpick] at h
        cases sel with
        | progressive f => simp [isJsonEv]
        | dash v a => exact jsonCount_dashRun o entry.title v a

/-- Witness for C8 (amended) at a fully successful dash run. -/
theorem claim_C8_witness :
    (((mainRun oracleMergedOk).1).filter isJsonEv).length = 1 :=
  claim_C8_single_json oracleMergedOk (by decide)

/-- C9: cleanup removes only those of its argument paths that exist; the only
paths the orchestrator ever passes it — on the success path and on the
failure path alike — are the run's two intermediate files, so any removal in
a run's trace concerns the downloaded video or audio file, and the merged
output file is never deleted. -/
theorem claim_C9_cleanup_scope :
    (∀ (pe : String → Bool) (rm : String → Except String Unit)
        (ps : List String) (p : String),
        Ev.remove p ∈ cleanupFilesRun pe rm ps → p ∈ ps ∧ pe p = true) ∧
    (∀ (o : RunOracle) (p : String), Ev.remove p ∈ (mainRun o).1 →
        ∃ entry v a, o.meta = .ok entry ∧
          pickFormats entry.formats = some (.dash v a) ∧
          (p = videoFileOf entry.title v ∨ p = audioFileOf entry.title a)) ∧
    (∀ (o : RunOracle) (entry : Entry), o.meta = .ok entry →
        Ev.remove (mergedFileOf entry.title) ∉ (mainRun o).1) ∧
    (∀ (o : RunOracle) (title : Option String) (v a : Format),
        ∃ pre post, (dashRun o title v a).1
          = pre ++ cleanupFilesRun o.pathExists o.removeR
                [videoFileOf title v, audioFileOf title a] ++ post) := by
  refine ⟨?_, ?_, ?_, ?_⟩
  · intro pe rm ps p h
    exact remove_mem_cleanup h
  · intro o p h
    exact mainRun_remove_spec h
  · intro o entry hm hc
    obtain ⟨entry2, v, a, hm2, hpick, hp⟩ := mainRun_remove_spec hc
    have he : entry2 = entry := by
      rw [hm] at hm2
      exact (Except.ok.inj hm2).symm
    subst he
    rcases hp with hp | hp
    · exact absurd hp.symm (videoFileOf_ne_mergedFileOf entry2.title v)
    · exact absurd hp.symm (audioFileOf_ne_mergedFileOf entry2.title a)
  · intro o title v a
    unfold dashRun
    dsimp only
    split
    · exact ⟨_, _, rfl⟩
    · split <;> exact ⟨_, _, rfl⟩

/-- Witness for C9 at concrete runs. -/
theorem claim_C9_witness :
    ("x" ∈ ["x", "y"] ∧ (fun _ => true) "x" = true) ∧
    (∃ pre post, (dashRun oracleMergedOk dashEntry.title fmtVid720 fmtAud).1
       = pre ++ cleanupFilesRun oracleMergedOk.pathExists oracleMergedOk.removeR
             [videoFileOf dashEntry.title fmtVid720, audioFileOf dashEntry.title fmtAud]
         ++ post) ∧
    Ev.remove (mergedFileOf dashEntry.title) ∉ (mainRun oracleMergedOk).1 :=
  ⟨claim_C9_cleanup_scope.1 (fun _ => true) (fun _ => .ok ()) ["x", "y"] "x" (by decide),
   claim_C9_cleanup_scope.2.2.2 oracleMergedOk dashEntry.title fmtVid720 fmtAud,
   claim_C9_cleanup_scope.2.2.1 oracleMergedOk dashEntry rfl⟩

end DownloadVideo


